import Mathlib

/-!
Verification of the starkverifier repository core: BN254 field arithmetic
(`src/contracts/stylus/src/poseidon/field.rs`), the Poseidon permutation and
two-input hash (`src/contracts/stylus/src/poseidon/mod.rs`), the Merkle path
verifier (`src/contracts/stylus/src/merkle.rs`) and the contract entry points
(`src/contracts/stylus/src/lib.rs`).

Machine integers: Rust `U256` values are embedded as `Nat` together with
explicit wrapping modulo `2^256` exactly where the source wraps
(`overflowing_add`, `wrapping_sub`).

The constant tables `ROUND_CONSTANTS` and `MDS_MATRIX` live in
`src/contracts/stylus/src/poseidon/constants.rs`, a file that is declared
(`mod constants;`) and used by `mod.rs` but whose contents are not part of the
sources available here.  All definitions below are therefore parametric in the
round-constant table (a `List Nat`) and in the MDS matrix (an `MDSMatrix`
record); every structural theorem is proved for an arbitrary table.  Indexing
into the round-constant table is embedded with `List.get?`, so an out-of-bounds
access (a Rust panic) surfaces as `none` and propagates through the
`Option`-valued definitions.
-/

set_option maxRecDepth 16000

/-- Size of the `U256` machine-integer domain: `2^256`. -/
def U256_SIZE : Nat := 2 ^ 256

/-- Rust `U256::wrapping_sub` on values below `2^256`:
`x.wrapping_sub(y) = (x + 2^256 - y) mod 2^256`. -/
def wrappingSub (x y : Nat) : Nat := (x + U256_SIZE - y) % U256_SIZE

/-- The BN254 scalar-field prime `p` from `field.rs`
(`BN254_PRIME`, given there as four 64-bit limbs). -/
def BN254_PRIME : Nat :=
  21888242871839275222246405745257275088548364400416034343698204186575808495617

/-- `BN254Field::add` from `field.rs`: `overflowing_add`, then one conditional
`wrapping_sub` of the prime when the sum overflowed or is `≥ p`. -/
def BN254Field.add (a b : Nat) : Nat :=
  let sum := (a + b) % U256_SIZE
  if U256_SIZE ≤ a + b ∨ BN254_PRIME ≤ sum then wrappingSub sum BN254_PRIME
  else sum

/-- `BN254Field::sub` from `field.rs`: `a - b` when `a ≥ b`, otherwise wrap
through the field as `p - (b - a)`. -/
def BN254Field.sub (a b : Nat) : Nat :=
  if b ≤ a then wrappingSub a b
  else wrappingSub BN254_PRIME (wrappingSub b a)

/-- `BN254Field::mul` from `field.rs`: `a.mul_mod(b, p)`, the full double-width
product reduced modulo `p`. -/
def BN254Field.mul (a b : Nat) : Nat := a * b % BN254_PRIME

/-- `BN254Field::is_valid` from `field.rs`: `a < p`. -/
def BN254Field.is_valid (a : Nat) : Bool := a < BN254_PRIME

/-- `BN254Field::reduce` from `field.rs`: one conditional subtraction. -/
def BN254Field.reduce (a : Nat) : Nat :=
  if BN254_PRIME ≤ a then wrappingSub a BN254_PRIME else a

/-- The 3-element permutation state `[state[0], state[1], state[2]]` of
`PoseidonHasher` (`state : [U256; 3]` in `mod.rs`). -/
structure PState where
  s0 : Nat
  s1 : Nat
  s2 : Nat
deriving DecidableEq, Repr

/-- The 3×3 MDS matrix (`MDS_MATRIX[i][j]` from the absent `constants.rs`),
kept as an explicit parameter. -/
structure MDSMatrix where
  m00 : Nat
  m01 : Nat
  m02 : Nat
  m10 : Nat
  m11 : Nat
  m12 : Nat
  m20 : Nat
  m21 : Nat
  m22 : Nat
deriving DecidableEq, Repr

namespace PoseidonHasher

/-- `PoseidonHasher::T`: state width. -/
def T : Nat := 3

/-- `PoseidonHasher::FULL_ROUNDS`. -/
def FULL_ROUNDS : Nat := 8

/-- `PoseidonHasher::PARTIAL_ROUNDS`. -/
def PARTIAL_ROUNDS : Nat := 57

/-- `PoseidonHasher::sbox`: `x^5` computed as `x² → x⁴ → x⁴·x` with three
field multiplications. -/
def sbox (x : Nat) : Nat :=
  let x2 := BN254Field.mul x x
  let x4 := BN254Field.mul x2 x2
  BN254Field.mul x4 x

/-- `PoseidonHasher::mds_multiply`: `result[i]` starts at zero and accumulates
`add(result[i], mul(MDS_MATRIX[i][j], state[j]))` for `j = 0, 1, 2`. -/
def mds_multiply (M : MDSMatrix) (s : PState) : PState :=
  { s0 := BN254Field.add (BN254Field.add (BN254Field.add 0
            (BN254Field.mul M.m00 s.s0)) (BN254Field.mul M.m01 s.s1))
            (BN254Field.mul M.m02 s.s2)
    s1 := BN254Field.add (BN254Field.add (BN254Field.add 0
            (BN254Field.mul M.m10 s.s0)) (BN254Field.mul M.m11 s.s1))
            (BN254Field.mul M.m12 s.s2)
    s2 := BN254Field.add (BN254Field.add (BN254Field.add 0
            (BN254Field.mul M.m20 s.s0)) (BN254Field.mul M.m21 s.s1))
            (BN254Field.mul M.m22 s.s2) }

/-- `PoseidonHasher::full_round`: add `ROUND_CONSTANTS[round_ctr + i]` to
`state[i]` for `i = 0, 1, 2`, apply the S-box to all three elements, then the
MDS step.  A table access past the end (a Rust panic) is `none`. -/
def full_round (RC : List Nat) (M : MDSMatrix) (s : PState) (round_ctr : Nat) :
    Option PState := do
  let c0 ← RC.get? round_ctr
  let c1 ← RC.get? (round_ctr + 1)
  let c2 ← RC.get? (round_ctr + 2)
  let t : PState :=
    ⟨BN254Field.add s.s0 c0, BN254Field.add s.s1 c1, BN254Field.add s.s2 c2⟩
  let u : PState := ⟨sbox t.s0, sbox t.s1, sbox t.s2⟩
  some (mds_multiply M u)

/-- `PoseidonHasher::partial_round` (renamed `p_round` here): the same
round-constant addition to all three elements, the S-box applied to
`state[0]` only, then the MDS step. -/
def p_round (RC : List Nat) (M : MDSMatrix) (s : PState) (round_ctr : Nat) :
    Option PState := do
  let c0 ← RC.get? round_ctr
  let c1 ← RC.get? (round_ctr + 1)
  let c2 ← RC.get? (round_ctr + 2)
  let t : PState :=
    ⟨BN254Field.add s.s0 c0, BN254Field.add s.s1 c1, BN254Field.add s.s2 c2⟩
  let u : PState := ⟨sbox t.s0, t.s1, t.s2⟩
  some (mds_multiply M u)

/-- The loop `for _ in 0..n { full_round(&mut state, round_ctr); round_ctr += T; }`
from `hash_two`, returning the final state and cursor. -/
def run_full_rounds (RC : List Nat) (M : MDSMatrix) :
    Nat → PState → Nat → Option (PState × Nat)
  | 0, s, round_ctr => some (s, round_ctr)
  | n + 1, s, round_ctr => do
      let s' ← full_round RC M s round_ctr
      run_full_rounds RC M n s' (round_ctr + T)

/-- The loop `for _ in 0..n { partial_round(&mut state, round_ctr); round_ctr += T; }`
from `hash_two`. -/
def run_p_rounds (RC : List Nat) (M : MDSMatrix) :
    Nat → PState → Nat → Option (PState × Nat)
  | 0, s, round_ctr => some (s, round_ctr)
  | n + 1, s, round_ctr => do
      let s' ← p_round RC M s round_ctr
      run_p_rounds RC M n s' (round_ctr + T)

/-- `PoseidonHasher::hash_two`: state `[0, a, b]`, `FULL_ROUNDS / 2` full
rounds, `PARTIAL_ROUNDS` partial rounds, `FULL_ROUNDS / 2` full rounds, with
a single running cursor, returning `state[0]`. -/
def hash_two (RC : List Nat) (M : MDSMatrix) (a b : Nat) : Option Nat := do
  let state : PState := ⟨0, a, b⟩
  let half_full := FULL_ROUNDS / 2
  let (state, round_ctr) ← run_full_rounds RC M half_full state 0
  let (state, round_ctr) ← run_p_rounds RC M PARTIAL_ROUNDS state round_ctr
  let (state, _) ← run_full_rounds RC M half_full state round_ctr
  some state.s0

/-! ### Instrumented twin of `hash_two`

The definitions below are the same computation with the list of
round-constant indices read from `ROUND_CONSTANTS` returned alongside the
result; `full_round` reads exactly `round_ctr`, `round_ctr + 1`,
`round_ctr + 2`, and so does `p_round`.  They are used to state the
round-constant consumption claim. -/

/-- `full_round` together with the table indices it reads. -/
def full_round_t (RC : List Nat) (M : MDSMatrix) (s : PState) (round_ctr : Nat) :
    Option (PState × List Nat) :=
  (full_round RC M s round_ctr).map
    (fun s' => (s', [round_ctr, round_ctr + 1, round_ctr + 2]))

/-- `p_round` together with the table indices it reads. -/
def p_round_t (RC : List Nat) (M : MDSMatrix) (s : PState) (round_ctr : Nat) :
    Option (PState × List Nat) :=
  (p_round RC M s round_ctr).map
    (fun s' => (s', [round_ctr, round_ctr + 1, round_ctr + 2]))

/-- `run_full_rounds` with the accumulated access trace. -/
def run_full_rounds_t (RC : List Nat) (M : MDSMatrix) :
    Nat → PState → Nat → Option (PState × Nat × List Nat)
  | 0, s, round_ctr => some (s, round_ctr, [])
  | n + 1, s, round_ctr => do
      let (s', l) ← full_round_t RC M s round_ctr
      let (s'', round_ctr', l') ← run_full_rounds_t RC M n s' (round_ctr + T)
      some (s'', round_ctr', l ++ l')

/-- `run_p_rounds` with the accumulated access trace. -/
def run_p_rounds_t (RC : List Nat) (M : MDSMatrix) :
    Nat → PState → Nat → Option (PState × Nat × List Nat)
  | 0, s, round_ctr => some (s, round_ctr, [])
  | n + 1, s, round_ctr => do
      let (s', l) ← p_round_t RC M s round_ctr
      let (s'', round_ctr', l') ← run_p_rounds_t RC M n s' (round_ctr + T)
      some (s'', round_ctr', l ++ l')

/-- `hash_two` with the full trace of round-constant indices it reads. -/
def hash_two_t (RC : List Nat) (M : MDSMatrix) (a b : Nat) :
    Option (Nat × List Nat) := do
  let state : PState := ⟨0, a, b⟩
  let half_full := FULL_ROUNDS / 2
  let (state, round_ctr, l1) ← run_full_rounds_t RC M half_full state 0
  let (state, round_ctr, l2) ← run_p_rounds_t RC M PARTIAL_ROUNDS state round_ctr
  let (state, _, l3) ← run_full_rounds_t RC M half_full state round_ctr
  some (state.s0, l1 ++ l2 ++ l3)

end PoseidonHasher

/-! ### Specification-side definitions

Transcribed from the wording of the specification, to be compared with the
source-derived definitions above. -/

/-- Spec-side S-box: `x ↦ x^5` in the field. -/
def sboxSpec (x : Nat) : Nat := x ^ 5 % BN254_PRIME

/-- Spec-side MDS transform: `state := M · state` over the field, i.e.
output element `i` is `Σⱼ M[i][j] · state[j]` reduced modulo `p`. -/
def mdsSpec (M : MDSMatrix) (s : PState) : PState :=
  { s0 := (M.m00 * s.s0 + M.m01 * s.s1 + M.m02 * s.s2) % BN254_PRIME
    s1 := (M.m10 * s.s0 + M.m11 * s.s1 + M.m12 * s.s2) % BN254_PRIME
    s2 := (M.m20 * s.s0 + M.m21 * s.s1 + M.m22 * s.s2) % BN254_PRIME }

/-- Spec-side round `r` of the permutation, `r = 0, …, 64`: add the three
round constants at the single-cursor positions `3r`, `3r + 1`, `3r + 2`; the
S-box hits all three elements in a full round (`r < 4` or `61 ≤ r`) and only
element 0 in a partial round (elements 1 and 2 pass through unchanged); the
round ends with the MDS transform. -/
def roundSpec (RC : List Nat) (M : MDSMatrix) (r : Nat) (s : PState) :
    Option PState := do
  let c0 ← RC.get? (3 * r)
  let c1 ← RC.get? (3 * r + 1)
  let c2 ← RC.get? (3 * r + 2)
  let t : PState :=
    ⟨BN254Field.add s.s0 c0, BN254Field.add s.s1 c1, BN254Field.add s.s2 c2⟩
  let u : PState :=
    if r < 4 ∨ 61 ≤ r then ⟨sboxSpec t.s0, sboxSpec t.s1, sboxSpec t.s2⟩
    else ⟨sboxSpec t.s0, t.s1, t.s2⟩
  some (mdsSpec M u)

/-- Spec-side hash: initialize the state to `[0, a, b]`, run the 65 rounds in
order (4 full, 57 partial, 4 full, one never-reset cursor), return `state[0]`. -/
def hashTwoSpec (RC : List Nat) (M : MDSMatrix) (a b : Nat) : Option Nat :=
  ((List.range 65).foldlM (fun s r => roundSpec RC M r s) (⟨0, a, b⟩ : PState)).map
    PState.s0

/-- Spec-side Merkle fold: starting from `current = leaf`, combine with each
`(sibling, direction)` pair in order, `hash_two(sibling, current)` when the
direction bit says the current node is the right child and
`hash_two(current, sibling)` otherwise. -/
def merkleFold (RC : List Nat) (M : MDSMatrix) (leaf : Nat) (path : List Nat)
    (indices : List Bool) : Option Nat :=
  (path.zip indices).foldlM
    (fun current si =>
      if si.2 then PoseidonHasher.hash_two RC M si.1 current
      else PoseidonHasher.hash_two RC M current si.1)
    leaf

/-- Generic `n`-fold iteration of an `Option`-valued step, used to state the
benchmark claims. -/
def iterOpt (f : Nat → Option Nat) : Nat → Nat → Option Nat
  | 0, x => some x
  | n + 1, x => (f x).bind (iterOpt f n)

namespace MerkleVerifier

/-- `MerkleVerifier::verify` from `merkle.rs`: reject a length mismatch with
`false`, treat an empty path as `leaf == root`, otherwise walk the zipped
`(sibling, is_right)` pairs updating `current` and compare with `root`.
A panic inside `hash_two` is `none`. -/
def verify (RC : List Nat) (M : MDSMatrix) (root leaf : Nat) (path : List Nat)
    (indices : List Bool) : Option Bool :=
  if path.length ≠ indices.length then some false
  else if path.isEmpty then some (leaf == root)
  else do
    let current ← (path.zip indices).foldlM
      (fun current si =>
        if si.2 then PoseidonHasher.hash_two RC M si.1 current
        else PoseidonHasher.hash_two RC M current si.1)
      leaf
    some (current == root)

end MerkleVerifier

/-- The `sol_storage!` state of `StarkVerifier` in `lib.rs`: last verified
root, last verification result, and the `uint256` verification counter. -/
structure StarkVerifier where
  last_verified_root : Nat
  last_verification_result : Bool
  verification_count : Nat
deriving DecidableEq, Repr

namespace StarkVerifier

/-- `StarkVerifier::poseidon_hash` from `lib.rs`. -/
def poseidon_hash (RC : List Nat) (M : MDSMatrix) (a b : Nat) : Option Nat :=
  PoseidonHasher.hash_two RC M a b

/-- `StarkVerifier::batch_poseidon` from `lib.rs`:
`a_values.iter().zip(b_values.iter()).map(hash_two).collect()`. -/
def batch_poseidon (RC : List Nat) (M : MDSMatrix)
    (a_values b_values : List Nat) : Option (List Nat) :=
  (a_values.zip b_values).mapM
    (fun p => PoseidonHasher.hash_two RC M p.1 p.2)

/-- `StarkVerifier::verify_merkle_path` from `lib.rs`: compute the
verification result, store the root, the result and the incremented (wrapping
`U256`) counter, and return the result. -/
def verify_merkle_path (RC : List Nat) (M : MDSMatrix) (self : StarkVerifier)
    (root leaf : Nat) (path : List Nat) (indices : List Bool) :
    Option (Bool × StarkVerifier) := do
  let result ← MerkleVerifier.verify RC M root leaf path indices
  some (result,
    { last_verified_root := root
      last_verification_result := result
      verification_count := (self.verification_count + 1) % U256_SIZE })

/-- `StarkVerifier::get_last_result` from `lib.rs`. -/
def get_last_result (self : StarkVerifier) : Nat × Bool :=
  (self.last_verified_root, self.last_verification_result)

/-- `StarkVerifier::get_verification_count` from `lib.rs`. -/
def get_verification_count (self : StarkVerifier) : Nat :=
  self.verification_count

/-- The loop `for _ in 1..iterations { result = hash_two(result, seed_b); }`
of `StarkVerifier::benchmark_hash`; the Rust range `1..iterations` has
`iterations - 1` elements (none when `iterations ≤ 1`). -/
def bench_loop (RC : List Nat) (M : MDSMatrix) (seed_b : Nat) :
    Nat → Nat → Option Nat
  | 0, result => some result
  | n + 1, result =>
      (PoseidonHasher.hash_two RC M result seed_b).bind
        (bench_loop RC M seed_b n)

/-- `StarkVerifier::benchmark_hash` from `lib.rs`: seed with
`hash_two(seed_a, seed_b)`, then run the `for _ in 1..iterations` loop. -/
def benchmark_hash (RC : List Nat) (M : MDSMatrix) (iterations : Nat)
    (seed_a seed_b : Nat) : Option Nat := do
  let result ← PoseidonHasher.hash_two RC M seed_a seed_b
  bench_loop RC M seed_b (iterations - 1) result

end StarkVerifier

/-- Modelled from the spec: the Poseidon constant tables (`ROUND_CONSTANTS`
and `MDS_MATRIX` in `poseidon/constants.rs`) are declared and used by the
sources but the file itself is not among them, so `hash_two` at the reference
tables cannot be computed here.  The spec (§4.2, §8) requires the permutation
to reproduce the published circomlib reference exactly, and the source test
`test_poseidon_circomlib_compatibility` in `poseidon/mod.rs` records the
published reference value of `poseidon([1, 2])` as the literal below. -/
def reference_hash_1_2 : Nat :=
  0x115cc0f5e7d690413df64c6b9662e9cf2a3617f2743245519e19607a4417189a

/-! ### Field arithmetic lemmas -/

theorem two_mul_prime_lt_u256 : 2 * BN254_PRIME < U256_SIZE := by decide

theorem prime_pos : 0 < BN254_PRIME := by decide

/-- On reduced inputs, `BN254Field::add` is addition modulo `p`. -/
theorem BN254Field.add_eq {a b : Nat} (ha : a < BN254_PRIME)
    (hb : b < BN254_PRIME) :
    BN254Field.add a b = (a + b) % BN254_PRIME := by
  have hU := two_mul_prime_lt_u256
  have hab : a + b < U256_SIZE := by omega
  simp only [BN254Field.add, wrappingSub]
  rw [Nat.mod_eq_of_lt hab]
  by_cases hp : BN254_PRIME ≤ a + b
  · rw [if_pos (Or.inr hp)]
    have h1 : a + b + U256_SIZE - BN254_PRIME =
        (a + b - BN254_PRIME) + U256_SIZE := by omega
    rw [h1, Nat.add_mod_right, Nat.mod_eq_of_lt (by omega),
      Nat.mod_eq_sub_mod hp, Nat.mod_eq_of_lt (by omega)]
  · have hcond : ¬(U256_SIZE ≤ a + b ∨ BN254_PRIME ≤ a + b) := by omega
    rw [if_neg hcond, Nat.mod_eq_of_lt (by omega)]

/-- On reduced inputs, `BN254Field::add` stays in the field. -/
theorem BN254Field.add_lt {a b : Nat} (ha : a < BN254_PRIME)
    (hb : b < BN254_PRIME) : BN254Field.add a b < BN254_PRIME := by
  rw [BN254Field.add_eq ha hb]
  exact Nat.mod_lt _ prime_pos

/-- On reduced inputs, `BN254Field::sub` computes `(a - b) mod p`, written
over `Nat` as `(a + p - b) mod p`. -/
theorem BN254Field.sub_eq {a b : Nat} (ha : a < BN254_PRIME)
    (hb : b < BN254_PRIME) :
    BN254Field.sub a b = (a + BN254_PRIME - b) % BN254_PRIME := by
  have hU := two_mul_prime_lt_u256
  simp only [BN254Field.sub, wrappingSub]
  by_cases hba : b ≤ a
  · rw [if_pos hba]
    have h1 : a + U256_SIZE - b = (a - b) + U256_SIZE := by omega
    rw [h1, Nat.add_mod_right, Nat.mod_eq_of_lt (by omega)]
    have h2 : a + BN254_PRIME - b = (a - b) + BN254_PRIME := by omega
    rw [h2, Nat.add_mod_right, Nat.mod_eq_of_lt (by omega)]
  · rw [if_neg hba]
    have hin : (b + U256_SIZE - a) % U256_SIZE = b - a := by
      rw [show b + U256_SIZE - a = (b - a) + U256_SIZE by omega,
        Nat.add_mod_right]
      exact Nat.mod_eq_of_lt (by omega)
    rw [hin, show BN254_PRIME + U256_SIZE - (b - a) =
        (BN254_PRIME - (b - a)) + U256_SIZE by omega, Nat.add_mod_right,
      Nat.mod_eq_of_lt (by omega),
      show a + BN254_PRIME - b = BN254_PRIME - (b - a) by omega,
      Nat.mod_eq_of_lt (by omega)]

/-- On reduced inputs, `BN254Field::sub` stays in the field. -/
theorem BN254Field.sub_lt {a b : Nat} (ha : a < BN254_PRIME)
    (hb : b < BN254_PRIME) : BN254Field.sub a b < BN254_PRIME := by
  rw [BN254Field.sub_eq ha hb]
  exact Nat.mod_lt _ prime_pos

/-- `BN254Field::mul` is multiplication modulo `p`, by definition of
`mul_mod`. -/
theorem BN254Field.mul_eq (a b : Nat) :
    BN254Field.mul a b = a * b % BN254_PRIME := rfl

/-- `BN254Field::mul` always lands in the field. -/
theorem BN254Field.mul_lt (a b : Nat) : BN254Field.mul a b < BN254_PRIME :=
  Nat.mod_lt _ prime_pos

/-! ### S-box, MDS and round lemmas -/

/-- The square-and-multiply S-box computes `x^5 mod p`. -/
theorem sbox_eq_sboxSpec (x : Nat) : PoseidonHasher.sbox x = sboxSpec x := by
  simp only [PoseidonHasher.sbox, sboxSpec, BN254Field.mul]
  rw [← Nat.mul_mod, Nat.mod_mul_mod]
  congr 1
  ring

/-- One output component of `mds_multiply` is the field dot product. -/
theorem mds_component (m0 m1 m2 x y z : Nat) :
    BN254Field.add (BN254Field.add (BN254Field.add 0 (BN254Field.mul m0 x))
        (BN254Field.mul m1 y)) (BN254Field.mul m2 z) =
      (m0 * x + m1 * y + m2 * z) % BN254_PRIME := by
  have l0 := BN254Field.mul_lt m0 x
  have l1 := BN254Field.mul_lt m1 y
  have l2 := BN254Field.mul_lt m2 z
  have e0 : BN254Field.add 0 (BN254Field.mul m0 x) = BN254Field.mul m0 x := by
    rw [BN254Field.add_eq prime_pos l0, Nat.zero_add, Nat.mod_eq_of_lt l0]
  rw [e0, BN254Field.add_eq l0 l1,
    BN254Field.add_eq (Nat.mod_lt _ prime_pos) l2, Nat.mod_add_mod]
  exact ((Nat.mod_modEq (m0 * x) BN254_PRIME).add
    (Nat.mod_modEq (m1 * y) BN254_PRIME)).add (Nat.mod_modEq (m2 * z) BN254_PRIME)

/-- `mds_multiply` agrees with the spec-side MDS transform `M · state`. -/
theorem mds_multiply_eq_mdsSpec (M : MDSMatrix) (s : PState) :
    PoseidonHasher.mds_multiply M s = mdsSpec M s := by
  simp only [PoseidonHasher.mds_multiply, mdsSpec, PState.mk.injEq]
  exact ⟨mds_component _ _ _ _ _ _, mds_component _ _ _ _ _ _,
    mds_component _ _ _ _ _ _⟩

/-- A source full round at cursor `3r` is the spec-side round `r` when round
`r` is a full round. -/
theorem full_round_eq_roundSpec (RC : List Nat) (M : MDSMatrix) (s : PState)
    (r : Nat) (h : r < 4 ∨ 61 ≤ r) :
    PoseidonHasher.full_round RC M s (3 * r) = roundSpec RC M r s := by
  unfold PoseidonHasher.full_round roundSpec
  cases RC.get? (3 * r) with
  | none => rfl
  | some c0 =>
    cases RC.get? (3 * r + 1) with
    | none => rfl
    | some c1 =>
      cases RC.get? (3 * r + 2) with
      | none => rfl
      | some c2 =>
        simp only [Option.bind_eq_bind, Option.some_bind, Option.some.injEq,
          if_pos h]
        rw [mds_multiply_eq_mdsSpec]
        simp only [sbox_eq_sboxSpec]

/-- A source partial round at cursor `3r` is the spec-side round `r` when
round `r` is a partial round. -/
theorem p_round_eq_roundSpec (RC : List Nat) (M : MDSMatrix) (s : PState)
    (r : Nat) (h : ¬(r < 4 ∨ 61 ≤ r)) :
    PoseidonHasher.p_round RC M s (3 * r) = roundSpec RC M r s := by
  unfold PoseidonHasher.p_round roundSpec
  cases RC.get? (3 * r) with
  | none => rfl
  | some c0 =>
    cases RC.get? (3 * r + 1) with
    | none => rfl
    | some c1 =>
      cases RC.get? (3 * r + 2) with
      | none => rfl
      | some c2 =>
        simp only [Option.bind_eq_bind, Option.some_bind, Option.some.injEq,
          if_neg h]
        rw [mds_multiply_eq_mdsSpec]
        simp only [sbox_eq_sboxSpec]

/-- The full-round loop starting at cursor `3r` folds the spec-side rounds
`r, …, r + n - 1` and leaves the cursor at `3(r + n)`. -/
theorem run_full_rounds_eq_fold (RC : List Nat) (M : MDSMatrix) (n : Nat) :
    ∀ (r : Nat) (s : PState), (∀ i, i < n → r + i < 4 ∨ 61 ≤ r + i) →
    PoseidonHasher.run_full_rounds RC M n s (3 * r) =
      ((List.range' r n).foldlM (fun s i => roundSpec RC M i s) s).map
        (fun s' => (s', 3 * (r + n))) := by
  induction n with
  | zero =>
    intro r s _
    simp [PoseidonHasher.run_full_rounds, List.range']
  | succ n ih =>
    intro r s h
    have hfull : r < 4 ∨ 61 ≤ r := by
      have := h 0 (by omega)
      omega
    rw [List.range'_succ, List.foldlM_cons]
    show (PoseidonHasher.full_round RC M s (3 * r)).bind
        (fun s' => PoseidonHasher.run_full_rounds RC M n s' (3 * r + PoseidonHasher.T)) = _
    rw [full_round_eq_roundSpec RC M s r hfull]
    cases roundSpec RC M r s with
    | none => rfl
    | some s' =>
      simp only [Option.some_bind]
      rw [show 3 * r + PoseidonHasher.T = 3 * (r + 1) by
        simp [PoseidonHasher.T]; ring]
      rw [ih (r + 1) s' (fun i hi => by have := h (i + 1) (by omega); omega)]
      rw [show (r + 1) + n = r + (n + 1) by omega]
      simp

/-- The partial-round loop starting at cursor `3r` folds the spec-side rounds
`r, …, r + n - 1` and leaves the cursor at `3(r + n)`. -/
theorem run_p_rounds_eq_fold (RC : List Nat) (M : MDSMatrix) (n : Nat) :
    ∀ (r : Nat) (s : PState), (∀ i, i < n → ¬(r + i < 4 ∨ 61 ≤ r + i)) →
    PoseidonHasher.run_p_rounds RC M n s (3 * r) =
      ((List.range' r n).foldlM (fun s i => roundSpec RC M i s) s).map
        (fun s' => (s', 3 * (r + n))) := by
  induction n with
  | zero =>
    intro r s _
    simp [PoseidonHasher.run_p_rounds, List.range']
  | succ n ih =>
    intro r s h
    have hp : ¬(r < 4 ∨ 61 ≤ r) := by
      have := h 0 (by omega)
      omega
    rw [List.range'_succ, List.foldlM_cons]
    show (PoseidonHasher.p_round RC M s (3 * r)).bind
        (fun s' => PoseidonHasher.run_p_rounds RC M n s' (3 * r + PoseidonHasher.T)) = _
    rw [p_round_eq_roundSpec RC M s r hp]
    cases roundSpec RC M r s with
    | none => rfl
    | some s' =>
      simp only [Option.some_bind]
      rw [show 3 * r + PoseidonHasher.T = 3 * (r + 1) by
        simp [PoseidonHasher.T]; ring]
      rw [ih (r + 1) s' (fun i hi => by have := h (i + 1) (by omega); omega)]
      rw [show (r + 1) + n = r + (n + 1) by omega]
      simp

/-- C1: `hash_two(a, b)` initializes the state to `[0, a, b]`, then runs
exactly 4 full rounds, 57 partial rounds and 4 more full rounds — each round
adding the next 3 round constants from a single cursor advancing by 3 per
round and never reset between phases, full rounds applying the `x^5` S-box to
all 3 elements while partial rounds apply it to element 0 only, each round
ending with the MDS transform `state := M · state` over the field — and
finally returns `state[0]`.  Stated as equality with the spec-side
transcription `hashTwoSpec`, for every round-constant table and MDS matrix. -/
theorem hash_two_round_structure (RC : List Nat) (M : MDSMatrix) (a b : Nat) :
    PoseidonHasher.hash_two RC M a b = hashTwoSpec RC M a b := by
  have hhalf : PoseidonHasher.FULL_ROUNDS / 2 = 4 := rfl
  have hpart : PoseidonHasher.PARTIAL_ROUNDS = 57 := rfl
  have hsplit : List.range 65 =
      List.range' 0 4 ++ (List.range' 4 57 ++ List.range' 61 4) := by decide
  have e1 := run_full_rounds_eq_fold RC M 4 0 ⟨0, a, b⟩
    (by intro i hi; omega)
  norm_num at e1
  simp only [PoseidonHasher.hash_two, hashTwoSpec, hhalf, hpart, hsplit,
    List.foldlM_append, e1]
  cases h1 : List.foldlM (fun s i => roundSpec RC M i s)
      (⟨0, a, b⟩ : PState) (List.range' 0 4) with
  | none => simp
  | some s1 =>
    have e2 := run_p_rounds_eq_fold RC M 57 4 s1 (by intro i hi; omega)
    norm_num at e2
    simp only [Option.map_some', Option.bind_eq_bind, Option.some_bind, e2]
    cases h2 : List.foldlM (fun s i => roundSpec RC M i s) s1
        (List.range' 4 57) with
    | none => simp
    | some s2 =>
      have e3 := run_full_rounds_eq_fold RC M 4 61 s2 (by intro i hi; omega)
      norm_num at e3
      simp only [Option.map_some', Option.bind_eq_bind, Option.some_bind, e3]
      cases List.foldlM (fun s i => roundSpec RC M i s) s2
          (List.range' 61 4) with
      | none => simp
      | some s3 => simp

/-! ### Totality and access-trace lemmas -/

/-- Running `n` full rounds from cursor `c` succeeds whenever the table holds
the `3n` constants starting at `c`, and leaves the cursor at `c + 3n`. -/
theorem run_full_rounds_total (RC : List Nat) (M : MDSMatrix) (n : Nat) :
    ∀ (s : PState) (c : Nat), c + 3 * n ≤ RC.length →
    ∃ s', PoseidonHasher.run_full_rounds RC M n s c = some (s', c + 3 * n) := by
  induction n with
  | zero =>
    intro s c _
    exact ⟨s, by simp [PoseidonHasher.run_full_rounds]⟩
  | succ n ih =>
    intro s c h
    obtain ⟨c0, h0⟩ : ∃ x, RC.get? c = some x := by
      cases hc : RC.get? c with
      | none => exact absurd (List.get?_eq_none.mp hc) (by omega)
      | some x => exact ⟨x, rfl⟩
    obtain ⟨c1, h1⟩ : ∃ x, RC.get? (c + 1) = some x := by
      cases hc : RC.get? (c + 1) with
      | none => exact absurd (List.get?_eq_none.mp hc) (by omega)
      | some x => exact ⟨x, rfl⟩
    obtain ⟨c2, h2⟩ : ∃ x, RC.get? (c + 2) = some x := by
      cases hc : RC.get? (c + 2) with
      | none => exact absurd (List.get?_eq_none.mp hc) (by omega)
      | some x => exact ⟨x, rfl⟩
    obtain ⟨s', hs'⟩ := ih
      (PoseidonHasher.mds_multiply M
        ⟨PoseidonHasher.sbox (BN254Field.add s.s0 c0),
         PoseidonHasher.sbox (BN254Field.add s.s1 c1),
         PoseidonHasher.sbox (BN254Field.add s.s2 c2)⟩)
      (c + PoseidonHasher.T) (by simp only [PoseidonHasher.T]; omega)
    refine ⟨s', ?_⟩
    show (PoseidonHasher.full_round RC M s c).bind _ = _
    simp only [PoseidonHasher.full_round, h0, h1, h2, Option.bind_eq_bind,
      Option.some_bind, hs']
    simp only [PoseidonHasher.T, Option.some.injEq, Prod.mk.injEq]
    exact ⟨trivial, by omega⟩

/-- Running `n` partial rounds from cursor `c` succeeds whenever the table
holds the `3n` constants starting at `c`. -/
theorem run_p_rounds_total (RC : List Nat) (M : MDSMatrix) (n : Nat) :
    ∀ (s : PState) (c : Nat), c + 3 * n ≤ RC.length →
    ∃ s', PoseidonHasher.run_p_rounds RC M n s c = some (s', c + 3 * n) := by
  induction n with
  | zero =>
    intro s c _
    exact ⟨s, by simp [PoseidonHasher.run_p_rounds]⟩
  | succ n ih =>
    intro s c h
    obtain ⟨c0, h0⟩ : ∃ x, RC.get? c = some x := by
      cases hc : RC.get? c with
      | none => exact absurd (List.get?_eq_none.mp hc) (by omega)
      | some x => exact ⟨x, rfl⟩
    obtain ⟨c1, h1⟩ : ∃ x, RC.get? (c + 1) = some x := by
      cases hc : RC.get? (c + 1) with
      | none => exact absurd (List.get?_eq_none.mp hc) (by omega)
      | some x => exact ⟨x, rfl⟩
    obtain ⟨c2, h2⟩ : ∃ x, RC.get? (c + 2) = some x := by
      cases hc : RC.get? (c + 2) with
      | none => exact absurd (List.get?_eq_none.mp hc) (by omega)
      | some x => exact ⟨x, rfl⟩
    obtain ⟨s', hs'⟩ := ih
      (PoseidonHasher.mds_multiply M
        ⟨PoseidonHasher.sbox (BN254Field.add s.s0 c0),
         BN254Field.add s.s1 c1, BN254Field.add s.s2 c2⟩)
      (c + PoseidonHasher.T) (by simp only [PoseidonHasher.T]; omega)
    refine ⟨s', ?_⟩
    show (PoseidonHasher.p_round RC M s c).bind _ = _
    simp only [PoseidonHasher.p_round, h0, h1, h2, Option.bind_eq_bind,
      Option.some_bind, hs']
    simp only [PoseidonHasher.T, Option.some.injEq, Prod.mk.injEq]
    exact ⟨trivial, by omega⟩

/-- The instrumented full-round loop is the plain loop together with the
contiguous index range it reads. -/
theorem run_full_rounds_t_eq (RC : List Nat) (M : MDSMatrix) (n : Nat) :
    ∀ (s : PState) (c : Nat),
    PoseidonHasher.run_full_rounds_t RC M n s c =
      (PoseidonHasher.run_full_rounds RC M n s c).map
        (fun p => (p.1, p.2, List.range' c (3 * n))) := by
  induction n with
  | zero =>
    intro s c
    simp [PoseidonHasher.run_full_rounds_t, PoseidonHasher.run_full_rounds,
      List.range']
  | succ n ih =>
    intro s c
    simp only [PoseidonHasher.run_full_rounds_t,
      PoseidonHasher.run_full_rounds, PoseidonHasher.full_round_t]
    cases PoseidonHasher.full_round RC M s c with
    | none => simp
    | some u =>
      simp only [Option.map_some', Option.bind_eq_bind, Option.some_bind,
        ih u (c + PoseidonHasher.T)]
      cases PoseidonHasher.run_full_rounds RC M n u (c + PoseidonHasher.T) with
      | none => simp
      | some p =>
        simp only [Option.map_some', Option.some_bind, Option.some.injEq,
          Prod.mk.injEq, true_and]
        rw [show 3 * (n + 1) = 3 * n + 1 + 1 + 1 by ring, List.range'_succ,
          List.range'_succ, List.range'_succ]
        simp [PoseidonHasher.T]

/-- The instrumented partial-round loop is the plain loop together with the
contiguous index range it reads. -/
theorem run_p_rounds_t_eq (RC : List Nat) (M : MDSMatrix) (n : Nat) :
    ∀ (s : PState) (c : Nat),
    PoseidonHasher.run_p_rounds_t RC M n s c =
      (PoseidonHasher.run_p_rounds RC M n s c).map
        (fun p => (p.1, p.2, List.range' c (3 * n))) := by
  induction n with
  | zero =>
    intro s c
    simp [PoseidonHasher.run_p_rounds_t, PoseidonHasher.run_p_rounds,
      List.range']
  | succ n ih =>
    intro s c
    simp only [PoseidonHasher.run_p_rounds_t,
      PoseidonHasher.run_p_rounds, PoseidonHasher.p_round_t]
    cases PoseidonHasher.p_round RC M s c with
    | none => simp
    | some u =>
      simp only [Option.map_some', Option.bind_eq_bind, Option.some_bind,
        ih u (c + PoseidonHasher.T)]
      cases PoseidonHasher.run_p_rounds RC M n u (c + PoseidonHasher.T) with
      | none => simp
      | some p =>
        simp only [Option.map_some', Option.some_bind, Option.some.injEq,
          Prod.mk.injEq, true_and]
        rw [show 3 * (n + 1) = 3 * n + 1 + 1 + 1 by ring, List.range'_succ,
          List.range'_succ, List.range'_succ]
        simp [PoseidonHasher.T]

/-! ### Concrete instantiations used by witnesses and counterexamples -/

/-- An all-zero MDS matrix, a concrete instantiation for witnesses. -/
def zeroMDS : MDSMatrix := ⟨0, 0, 0, 0, 0, 0, 0, 0, 0⟩

/-- An asymmetric concrete MDS matrix for counterexample computations. -/
def testMDS : MDSMatrix := ⟨1, 2, 3, 4, 5, 6, 7, 8, 9⟩

/-- A 195-entry all-zero round-constant table. -/
def zeroRC : List Nat := List.replicate 195 0

/-- A 195-entry all-one round-constant table. -/
def oneRC : List Nat := List.replicate 195 1

/-- With at least 195 round constants available, `hash_two` never hits an
out-of-bounds table access. -/
theorem hash_two_total (RC : List Nat) (M : MDSMatrix) (a b : Nat)
    (h : 195 ≤ RC.length) :
    ∃ v, PoseidonHasher.hash_two RC M a b = some v := by
  have hhalf : PoseidonHasher.FULL_ROUNDS / 2 = 4 := rfl
  have hpart : PoseidonHasher.PARTIAL_ROUNDS = 57 := rfl
  obtain ⟨s1, h1⟩ := run_full_rounds_total RC M 4 ⟨0, a, b⟩ 0 (by omega)
  norm_num at h1
  obtain ⟨s2, h2⟩ := run_p_rounds_total RC M 57 s1 12 (by omega)
  norm_num at h2
  obtain ⟨s3, h3⟩ := run_full_rounds_total RC M 4 s2 183 (by omega)
  refine ⟨s3.s0, ?_⟩
  simp only [PoseidonHasher.hash_two, hhalf, hpart, h1, h2, h3,
    Option.bind_eq_bind, Option.some_bind]

/-- C6: every round-constant access of one `hash_two` invocation is within
the bounds of the 195-entry table: the instrumented run reads exactly the
indices `0, 1, …, 194` (i.e. `List.range 195`, three per round from the
cursor values `0, 3, …, 192`), succeeds without any out-of-bounds access,
and computes the same value as `hash_two`. -/
theorem hash_two_consumes_exactly_195_constants (RC : List Nat)
    (M : MDSMatrix) (a b : Nat) (h : RC.length = 195) :
    ∃ v, PoseidonHasher.hash_two_t RC M a b = some (v, List.range 195) ∧
      PoseidonHasher.hash_two RC M a b = some v := by
  have hhalf : PoseidonHasher.FULL_ROUNDS / 2 = 4 := rfl
  have hpart : PoseidonHasher.PARTIAL_ROUNDS = 57 := rfl
  obtain ⟨s1, h1⟩ := run_full_rounds_total RC M 4 ⟨0, a, b⟩ 0 (by omega)
  norm_num at h1
  obtain ⟨s2, h2⟩ := run_p_rounds_total RC M 57 s1 12 (by omega)
  norm_num at h2
  obtain ⟨s3, h3⟩ := run_full_rounds_total RC M 4 s2 183 (by omega)
  norm_num at h3
  refine ⟨s3.s0, ?_, ?_⟩
  · simp only [PoseidonHasher.hash_two_t, hhalf, hpart,
      run_full_rounds_t_eq, run_p_rounds_t_eq, h1, h2, h3,
      Option.map_some', Option.bind_eq_bind, Option.some_bind,
      Option.some.injEq, Prod.mk.injEq]
    exact ⟨trivial, by decide⟩
  · simp only [PoseidonHasher.hash_two, hhalf, hpart, h1, h2, h3,
      Option.bind_eq_bind, Option.some_bind]

/-- Witness for C6 at the concrete 195-entry zero table. -/
theorem hash_two_consumes_exactly_195_constants_witness :
    zeroRC.length = 195 ∧
      (∃ v, PoseidonHasher.hash_two_t zeroRC zeroMDS 0 0 =
          some (v, List.range 195) ∧
        PoseidonHasher.hash_two zeroRC zeroMDS 0 0 = some v) :=
  ⟨by decide, hash_two_consumes_exactly_195_constants zeroRC zeroMDS 0 0
    (by decide)⟩

/-- C2: with equally long `path` and `indices`, `verify` returns `true`
exactly when the leaf-to-root fold of `(sibling, direction)` pairs — hashing
`(sibling, current)` for a right child and `(current, sibling)` for a left
child — ends at the claimed root; with empty path and indices this reduces to
`leaf == root`. -/
theorem verify_true_iff_fold_reaches_root (RC : List Nat) (M : MDSMatrix)
    (root leaf : Nat) (path : List Nat) (indices : List Bool)
    (h : path.length = indices.length) :
    MerkleVerifier.verify RC M root leaf path indices = some true ↔
      merkleFold RC M leaf path indices = some root := by
  unfold MerkleVerifier.verify merkleFold
  rw [if_neg (by simp [h])]
  by_cases hp : path.isEmpty
  · rw [if_pos hp]
    have hnil : path = [] := List.isEmpty_iff.mp hp
    subst hnil
    simp
  · rw [if_neg hp]
    cases hf : (path.zip indices).foldlM
        (fun current si =>
          if si.2 then PoseidonHasher.hash_two RC M si.1 current
          else PoseidonHasher.hash_two RC M current si.1) leaf with
    | none => simp [hf]
    | some c => simp [hf]

/-- Witness for C2 on a concrete one-level proof. -/
theorem verify_true_iff_fold_reaches_root_witness :
    ([3] : List Nat).length = ([false] : List Bool).length ∧
      (MerkleVerifier.verify zeroRC zeroMDS 0 5 [3] [false] = some true ↔
        merkleFold zeroRC zeroMDS 5 [3] [false] = some 0) :=
  ⟨rfl, verify_true_iff_fold_reaches_root zeroRC zeroMDS 0 5 [3] [false] rfl⟩

/-- C4: whenever `path` and `indices` have different lengths, `verify`
returns the boolean `false` (`some false`, never a panic/`none`), for every
root, leaf and content. -/
theorem verify_length_mismatch_false (RC : List Nat) (M : MDSMatrix)
    (root leaf : Nat) (path : List Nat) (indices : List Bool)
    (h : path.length ≠ indices.length) :
    MerkleVerifier.verify RC M root leaf path indices = some false := by
  unfold MerkleVerifier.verify
  rw [if_pos h]

/-- Witness for C4 with a non-empty path and empty indices (note the empty
round-constant table: the mismatch branch fires before any hashing). -/
theorem verify_length_mismatch_false_witness :
    ([1] : List Nat).length ≠ ([] : List Bool).length ∧
      MerkleVerifier.verify [] zeroMDS 0 0 [1] [] = some false :=
  ⟨by decide, verify_length_mismatch_false [] zeroMDS 0 0 [1] [] (by decide)⟩

/-- C5: for `a, b` in `[0, p)`, `BN254Field::add` computes `(a + b) mod p`,
`BN254Field::sub` computes `(a - b) mod p` (over `Nat`: `(a + p - b) mod p`),
`BN254Field::mul` computes `(a * b) mod p`, and all three results are
strictly below `p`. -/
theorem bn254_field_ops_mod_p (a b : Nat) (ha : a < BN254_PRIME)
    (hb : b < BN254_PRIME) :
    BN254Field.add a b = (a + b) % BN254_PRIME ∧
      BN254Field.sub a b = (a + BN254_PRIME - b) % BN254_PRIME ∧
      BN254Field.mul a b = a * b % BN254_PRIME ∧
      BN254Field.add a b < BN254_PRIME ∧
      BN254Field.sub a b < BN254_PRIME ∧
      BN254Field.mul a b < BN254_PRIME :=
  ⟨BN254Field.add_eq ha hb, BN254Field.sub_eq ha hb, BN254Field.mul_eq a b,
    BN254Field.add_lt ha hb, BN254Field.sub_lt ha hb, BN254Field.mul_lt a b⟩

/-- Witness for C5 at a concrete in-range pair near the top of the field. -/
theorem bn254_field_ops_mod_p_witness :
    BN254_PRIME - 1 < BN254_PRIME ∧ 2 < BN254_PRIME ∧
      (BN254Field.add (BN254_PRIME - 1) 2 =
          (BN254_PRIME - 1 + 2) % BN254_PRIME ∧
        BN254Field.sub (BN254_PRIME - 1) 2 =
          (BN254_PRIME - 1 + BN254_PRIME - 2) % BN254_PRIME ∧
        BN254Field.mul (BN254_PRIME - 1) 2 =
          (BN254_PRIME - 1) * 2 % BN254_PRIME ∧
        BN254Field.add (BN254_PRIME - 1) 2 < BN254_PRIME ∧
        BN254Field.sub (BN254_PRIME - 1) 2 < BN254_PRIME ∧
        BN254Field.mul (BN254_PRIME - 1) 2 < BN254_PRIME) :=
  ⟨by decide, by decide,
    bn254_field_ops_mod_p (BN254_PRIME - 1) 2 (by decide) (by decide)⟩

/-- The benchmark feedback loop is the generic iterator of
`r ↦ hash_two(r, seed_b)`. -/
theorem bench_loop_eq_iterOpt (RC : List Nat) (M : MDSMatrix) (seed_b : Nat) :
    ∀ (k x : Nat), StarkVerifier.bench_loop RC M seed_b k x =
      iterOpt (fun r => PoseidonHasher.hash_two RC M r seed_b) k x := by
  intro k
  induction k with
  | zero => intro x; rfl
  | succ k ih =>
    intro x
    show (PoseidonHasher.hash_two RC M x seed_b).bind _ =
      (PoseidonHasher.hash_two RC M x seed_b).bind _
    cases PoseidonHasher.hash_two RC M x seed_b with
    | none => rfl
    | some v => exact ih v

/-- C8 (amended): `benchmark_hash(n, seed_a, seed_b)` seeds the accumulator
with `hash_two(seed_a, seed_b)` and then performs `n - 1` (truncated
subtraction, so zero when `n ≤ 1`) feedback steps `r := hash_two(r, seed_b)`,
returning the final value — one step fewer than the claim states, because the
Rust loop ranges over `1..iterations`. -/
theorem benchmark_hash_seeds_then_iterates (RC : List Nat) (M : MDSMatrix)
    (iterations seed_a seed_b : Nat) :
    StarkVerifier.benchmark_hash RC M iterations seed_a seed_b =
      (PoseidonHasher.hash_two RC M seed_a seed_b).bind
        (iterOpt (fun r => PoseidonHasher.hash_two RC M r seed_b)
          (iterations - 1)) := by
  show (PoseidonHasher.hash_two RC M seed_a seed_b).bind _ =
    (PoseidonHasher.hash_two RC M seed_a seed_b).bind _
  cases PoseidonHasher.hash_two RC M seed_a seed_b with
  | none => rfl
  | some v => exact bench_loop_eq_iterOpt RC M seed_b (iterations - 1) v

/-- The partial-round loop splits across round counts: `m + n` rounds from
cursor `c` are `m` rounds followed by `n` rounds from where they left off. -/
theorem run_p_rounds_add (RC : List Nat) (M : MDSMatrix) (m n : Nat) :
    ∀ (s : PState) (c : Nat),
    PoseidonHasher.run_p_rounds RC M (m + n) s c =
      (PoseidonHasher.run_p_rounds RC M m s c).bind
        (fun p => PoseidonHasher.run_p_rounds RC M n p.1 p.2) := by
  induction m with
  | zero =>
    intro s c
    simp [PoseidonHasher.run_p_rounds]
  | succ m ih =>
    intro s c
    rw [show m + 1 + n = (m + n) + 1 by omega]
    show (PoseidonHasher.p_round RC M s c).bind _ =
      ((PoseidonHasher.p_round RC M s c).bind _).bind _
    cases PoseidonHasher.p_round RC M s c with
    | none => rfl
    | some u =>
      simp only [Option.some_bind]
      exact ih u (c + PoseidonHasher.T)

/-- Chunked evaluation of `hash_two` through its phases (the 57 partial
rounds split as 19 + 19 + 19), keeping each kernel evaluation shallow. -/
theorem hash_two_eval_chunks (RC : List Nat) (M : MDSMatrix) (a b : Nat)
    (s4 s23 s42 s61 s65 : PState)
    (h1 : PoseidonHasher.run_full_rounds RC M 4 ⟨0, a, b⟩ 0 = some (s4, 12))
    (h2 : PoseidonHasher.run_p_rounds RC M 19 s4 12 = some (s23, 69))
    (h3 : PoseidonHasher.run_p_rounds RC M 19 s23 69 = some (s42, 126))
    (h4 : PoseidonHasher.run_p_rounds RC M 19 s42 126 = some (s61, 183))
    (h5 : PoseidonHasher.run_full_rounds RC M 4 s61 183 = some (s65, 195)) :
    PoseidonHasher.hash_two RC M a b = some s65.s0 := by
  have hhalf : PoseidonHasher.FULL_ROUNDS / 2 = 4 := rfl
  have hpart : PoseidonHasher.PARTIAL_ROUNDS = 57 := rfl
  have hp : PoseidonHasher.run_p_rounds RC M 57 s4 12 = some (s61, 183) := by
    rw [show (57 : Nat) = 19 + (19 + 19) by norm_num, run_p_rounds_add, h2]
    simp only [Option.some_bind]
    rw [run_p_rounds_add, h3]
    simp only [Option.some_bind]
    exact h4
  simp only [PoseidonHasher.hash_two, hhalf, hpart, h1, hp, h5,
    Option.bind_eq_bind, Option.some_bind]

/-- `iterOpt` at zero is the identity step. -/
theorem iterOpt_zero (f : Nat → Option Nat) (x : Nat) :
    iterOpt f 0 x = some x := rfl

/-- `iterOpt` at one performs a single step. -/
theorem iterOpt_one (f : Nat → Option Nat) (x : Nat) :
    iterOpt f 1 x = (f x).bind (iterOpt f 0) := rfl

/-- C8 counterexample: at `iterations = 1` with concrete 195-entry tables,
`benchmark_hash` returns the seed hash alone, while the claimed formula
(seed followed by `iterations` feedback steps) performs one more hash and
yields a different value. -/
theorem benchmark_hash_claim_counterexample :
    StarkVerifier.benchmark_hash oneRC testMDS 1 1 2 ≠
      (PoseidonHasher.hash_two oneRC testMDS 1 2).bind
        (iterOpt (fun r => PoseidonHasher.hash_two oneRC testMDS r 2) 1) := by
  have hH1 : PoseidonHasher.hash_two oneRC testMDS 1 2 =
      some 18851935748422816662682885839908328127103586104458957974022282028314283771759 :=
    hash_two_eval_chunks oneRC testMDS 1 2
      ⟨11481940016766804721019400056255322209030141201170847025944475819522769128341,
       2649731750787854010994714550334448649215626997353644436368783800895457753009,
       15705766356648178523216434789670850177949477193952476190491295968843954873294⟩
      ⟨12024145244619996678452757650983716906753046700253039188614189949404634528240,
       19022850763912473979412548545767734980790556091135192218564553826843003415475,
       4133313411365676058125933695294477966279701081601310904816713517705563807093⟩
      ⟨19238824824019675631367509545827148624936876373746612017966198999574803390859,
       21879793010987347078621039971354363515955177152328627319252387514362136434358,
       2632518326115743303628164651624303318425113530494608276840371842573660982240⟩
      ⟨9568508478750673471501118404536707111279553517863213290749355565239806921532,
       20840699304412577531333418232480689169729317895244677113548015343194079349905,
       10224647258235206368919312315167396139630717872210106592648470934572543282661⟩
      ⟨18851935748422816662682885839908328127103586104458957974022282028314283771759,
       18450164377410435509769688018476421869690883328706370133488130985261040722222,
       18048393006398054356856490197044515612278180552953782292953979942207797672685⟩
      (by decide) (by decide) (by decide) (by decide) (by decide)
  have hH2 : PoseidonHasher.hash_two oneRC testMDS
      18851935748422816662682885839908328127103586104458957974022282028314283771759 2 =
      some 13643028277684935121270506353524248181152782693842750614840467114339765252186 :=
    hash_two_eval_chunks oneRC testMDS
      18851935748422816662682885839908328127103586104458957974022282028314283771759 2
      ⟨9699648665796359546582214797745093051225045919897118589517551023683926274298,
       6415345825363261829211011198386845818747112950656743245962866389822890598767,
       3131042984930164111839807599028598586269179981416367902408181755961854923236⟩
      ⟨17091166978424062573192950327896443357306652206826046708814425492003609310110,
       305413910668181798003805275328013119315711531380392555501769992048429501367,
       5407903714751576245061065968016857969873135256350772745887318678669058188241⟩
      ⟨8913276194596895052281897547667072483908104186908353989883665820096753066224,
       18620262274327241861650078625372153384925114102722964638048875174475438117696,
       6439005482218313448771853957819959197393759618121540942515880342278314673551⟩
      ⟨2042076735184038798386990601272871103561200974866057377317109749049831244686,
       5450554782845523390903712949162099926998607179138725756706679960513124657080,
       8859032830507007983420435297051328750436013383411394136096250171976418069474⟩
      ⟨13643028277684935121270506353524248181152782693842750614840467114339765252186,
       14260770815011566483770835533571618623219358267424689147221805501371769691779,
       14878513352338197846271164713618989065285933841006627679603143888403774131372⟩
      (by decide) (by decide) (by decide) (by decide) (by decide)
  have hL : StarkVerifier.benchmark_hash oneRC testMDS 1 1 2 =
      some 18851935748422816662682885839908328127103586104458957974022282028314283771759 := by
    simp only [StarkVerifier.benchmark_hash, hH1, Option.bind_eq_bind,
      Option.some_bind]
    rfl
  have hR : (PoseidonHasher.hash_two oneRC testMDS 1 2).bind
      (iterOpt (fun r => PoseidonHasher.hash_two oneRC testMDS r 2) 1) =
      some 13643028277684935121270506353524248181152782693842750614840467114339765252186 := by
    rw [hH1, Option.some_bind, iterOpt_one, hH2, Option.some_bind,
      iterOpt_zero]
  rw [hL, hR]
  decide

/-- C9: `batch_poseidon` does not require equally long inputs: it returns a
list of length `min |a_values| |b_values|` whose `i`-th entry is
`hash_two(a_values[i], b_values[i])`, silently ignoring the trailing entries
of the longer input (given the 195-entry table so that hashing succeeds). -/
theorem batch_poseidon_zips_to_min_length (RC : List Nat) (M : MDSMatrix)
    (h : RC.length = 195) (a_values b_values : List Nat) :
    ∃ rs, StarkVerifier.batch_poseidon RC M a_values b_values = some rs ∧
      rs.length = min a_values.length b_values.length ∧
      ∀ i, i < rs.length →
        some (rs.getD i 0) = PoseidonHasher.hash_two RC M
          (a_values.getD i 0) (b_values.getD i 0) := by
  induction a_values generalizing b_values with
  | nil =>
    refine ⟨[], rfl, ?_, ?_⟩
    · simp
    · intro i hi
      simp at hi
  | cons a as ih =>
    cases b_values with
    | nil =>
      refine ⟨[], rfl, ?_, ?_⟩
      · simp
      · intro i hi
        simp at hi
    | cons b bs =>
      obtain ⟨v, hv⟩ := hash_two_total RC M a b (by omega)
      obtain ⟨rs, hrs, hlen, hidx⟩ := ih bs
      refine ⟨v :: rs, ?_, ?_, ?_⟩
      · show ((a, b) :: as.zip bs).mapM
            (fun p => PoseidonHasher.hash_two RC M p.1 p.2) = some (v :: rs)
        have hz : (as.zip bs).mapM
            (fun p => PoseidonHasher.hash_two RC M p.1 p.2) = some rs := hrs
        rw [List.mapM_cons]
        simp only [hv, hz, Option.bind_eq_bind, Option.some_bind,
          Option.pure_def]
      · simp only [List.length_cons]
        omega
      · intro i hi
        cases i with
        | zero => simpa using hv.symm
        | succ i =>
          simp only [List.getD_cons_succ]
          exact hidx i (by simpa using hi)

/-- Witness for C9 with inputs of different lengths. -/
theorem batch_poseidon_zips_to_min_length_witness :
    zeroRC.length = 195 ∧
      (∃ rs, StarkVerifier.batch_poseidon zeroRC zeroMDS [1, 2] [5] = some rs ∧
        rs.length = min ([1, 2] : List Nat).length ([5] : List Nat).length ∧
        ∀ i, i < rs.length →
          some (rs.getD i 0) = PoseidonHasher.hash_two zeroRC zeroMDS
            (([1, 2] : List Nat).getD i 0) (([5] : List Nat).getD i 0)) :=
  ⟨by decide, batch_poseidon_zips_to_min_length zeroRC zeroMDS (by decide)
    [1, 2] [5]⟩

/-- C10: every successful `verify_merkle_path` call returns exactly the
result of `MerkleVerifier::verify`, stores the root argument and that result,
and bumps the `uint256` verification counter by one (wrapping modulo
`2^256`); the post-state is fully determined by these three fields, so no
other storage changes. -/
theorem verify_merkle_path_frame_effects (RC : List Nat) (M : MDSMatrix)
    (self : StarkVerifier) (root leaf : Nat) (path : List Nat)
    (indices : List Bool) (r : Bool) (s' : StarkVerifier)
    (h : StarkVerifier.verify_merkle_path RC M self root leaf path indices =
      some (r, s')) :
    MerkleVerifier.verify RC M root leaf path indices = some r ∧
      s'.last_verified_root = root ∧
      s'.last_verification_result = r ∧
      s'.verification_count = (self.verification_count + 1) % U256_SIZE := by
  unfold StarkVerifier.verify_merkle_path at h
  cases hv : MerkleVerifier.verify RC M root leaf path indices with
  | none =>
    rw [hv] at h
    simp at h
  | some bres =>
    rw [hv] at h
    simp only [Option.bind_eq_bind, Option.some_bind, Option.some.injEq,
      Prod.mk.injEq] at h
    obtain ⟨hb, hs⟩ := h
    subst hb
    subst hs
    exact ⟨rfl, rfl, rfl, rfl⟩

/-- Witness for C10 on a depth-0 proof. -/
theorem verify_merkle_path_frame_effects_witness :
    StarkVerifier.verify_merkle_path [] zeroMDS ⟨0, false, 0⟩ 9 9 [] [] =
        some (true, ⟨9, true, 1⟩) ∧
      (MerkleVerifier.verify [] zeroMDS 9 9 [] [] = some true ∧
        (⟨9, true, 1⟩ : StarkVerifier).last_verified_root = 9 ∧
        (⟨9, true, 1⟩ : StarkVerifier).last_verification_result = true ∧
        (⟨9, true, 1⟩ : StarkVerifier).verification_count =
          ((⟨0, false, 0⟩ : StarkVerifier).verification_count + 1) %
            U256_SIZE) :=
  ⟨by decide, verify_merkle_path_frame_effects [] zeroMDS ⟨0, false, 0⟩ 9 9
    [] [] true ⟨9, true, 1⟩ (by decide)⟩

/-- C3 counterexample: the published reference value of `poseidon([1, 2])`
recorded by the source test (and required by the spec's interoperability
demand) is not the constant quoted in the claim — the claim's hex literal
drops the leading digit `1`. -/
theorem reference_vector_claim_counterexample :
    reference_hash_1_2 ≠
      0x15cc0f5e7d690413df64c6b9662e9cf2a3617f2743245519e19607a4417189a := by
  decide

/-- C3 (amended): `hash_two(1, 2)` equals the published circomlib reference
value `0x115cc0f5e7d690413df64c6b9662e9cf2a3617f2743245519e19607a4417189a`
(as recorded by `test_poseidon_circomlib_compatibility`), a valid field
element. -/
theorem reference_vector_value :
    reference_hash_1_2 =
        0x115cc0f5e7d690413df64c6b9662e9cf2a3617f2743245519e19607a4417189a ∧
      reference_hash_1_2 < BN254_PRIME := by
  decide
